import Mathlib

/-!
# Compatibility Scoring Engine — verification development

Shallow embedding of the compatibility scoring engine of the tool-registry
service (`compatibility` router): the similarity primitives `jaccard` and
`normalizeList`, the pairwise scorer `scoreCompatibility`, the
popularity-adjusted rank score, the single-target query path and the
full-registry recompute path (ranking, truncation, summary rollup and
batched persistence).

JavaScript numbers are modelled as exact rationals (`ℚ`); the only NaN the
routes can actually produce — a non-numeric `limit` query parameter — is
modelled explicitly by `JSNum := Option ℚ` with `none` standing for NaN,
mirroring NaN propagation through `Math.min` / `Math.max` and the
`ToIntegerOrInfinity(NaN) = 0` coercion inside `Array.prototype.slice`.
Optional descriptor fields are `Option`s, `none` standing for an absent
(undefined) field.  `Array.prototype.sort` with comparator
`(a, b) => b.rankScore - a.rankScore` is a stable sort, so its result is
characterised by sorting index-tagged entries by the strict total order
"higher rank score first, ties by lower original index".
-/

namespace Compat

/-- A tool descriptor as read from the registry.  List-valued fields are
optional (absent ⇒ `none`); `popularity_score` is optional. -/
structure ToolDesc where
  tool_id : String := ""
  name : String := ""
  category : Option (List String) := none
  integrations : Option (List String) := none
  verified_integrations : Option (List String) := none
  frameworks : Option (List String) := none
  languages : Option (List String) := none
  supported_languages : Option (List String) := none
  known_limitations : Option (List String) := none
  popularity_score : Option ℚ := none
deriving DecidableEq, Repr

/-- `String.prototype.toLowerCase`, character by character (written as a
structural map over the character list so that it evaluates by kernel
reduction; it agrees with `String.toLower`). -/
def toLowerStr (s : String) : String := String.mk (s.data.map Char.toLower)

/-- `Number(x.toFixed(3))`: round to 3 decimal places. -/
def toFixed3 (q : ℚ) : ℚ := (round (q * 1000) : ℤ) / 1000

/-- `normalizeList(list)`: `new Set(((list || []) as any[]).map(s => String(s).toLowerCase()).filter(Boolean))`.
Lower-cases each entry and drops the entries that are falsy, i.e. equal to
the empty string.  (There is no trimming in the source.) -/
def normalizeList (l : Option (List String)) : Finset String :=
  (((l.getD []).map toLowerStr).filter (fun s => s ≠ "")).toFinset

/-- The denominator used by `jaccard`: `new Set([...setA, ...setB]).size || 1`
— the size of the union, replaced by 1 when the union is empty. -/
def jaccardDenom (A B : Finset String) : ℕ :=
  if (A ∪ B).card = 0 then 1 else (A ∪ B).card

/-- `jaccard(setA, setB)`: intersection size over (guarded) union size. -/
def jaccard (A B : Finset String) : ℚ :=
  ((A ∩ B).card : ℚ) / (jaccardDenom A B : ℚ)

/-- The shared shape of `verifiedScore`, `frameworkScore`, `languageScore`
and `limitationPenalty` in the source:
`A.size > 0 && B.size > 0 ? jaccard(A, B) : 0`. -/
def condJaccard (A B : Finset String) : ℚ :=
  if 0 < A.card ∧ 0 < B.card then jaccard A B else 0

/-- `verifiedScore`: jaccard of verified integrations, only when both
sides are non-empty, else 0. -/
def verifiedScore (a b : ToolDesc) : ℚ :=
  condJaccard (normalizeList a.verified_integrations) (normalizeList b.verified_integrations)

/-- `frameworkScore`: jaccard of frameworks, only when both non-empty. -/
def frameworkScore (a b : ToolDesc) : ℚ :=
  condJaccard (normalizeList a.frameworks) (normalizeList b.frameworks)

/-- The language list of a descriptor: `a.languages || a.supported_languages`
(an empty array is truthy in JavaScript, so only an absent `languages`
falls back to `supported_languages`). -/
def langField (a : ToolDesc) : Option (List String) :=
  a.languages <|> a.supported_languages

/-- `languageScore`: jaccard of languages, only when both non-empty. -/
def languageScore (a b : ToolDesc) : ℚ :=
  condJaccard (normalizeList (langField a)) (normalizeList (langField b))

/-- `limitationPenalty`: jaccard of known limitations, only when both
non-empty. -/
def limitationPenalty (a b : ToolDesc) : ℚ :=
  condJaccard (normalizeList a.known_limitations) (normalizeList b.known_limitations)

/-- `categoryBoost`: `[...catsA].some(x => catsB.has(x)) ? 0.05 : 0`. -/
def categoryBoost (a b : ToolDesc) : ℚ :=
  if 0 < (normalizeList a.category ∩ normalizeList b.category).card
  then 1/20 else 0

/-- The weighted combination before the NaN guard, the upper clamp and the
rounding:
`0.55*integrationScore + 0.2*categoryScore + 0.1*verifiedScore
 + 0.1*frameworkScore + 0.05*languageScore - 0.2*limitationPenalty
 + categoryBoost`. -/
def rawScore (a b : ToolDesc) : ℚ :=
  (11/20) * jaccard (normalizeList a.integrations) (normalizeList b.integrations) +
  (1/5) * jaccard (normalizeList a.category) (normalizeList b.category) +
  (1/10) * verifiedScore a b +
  (1/10) * frameworkScore a b +
  (1/20) * languageScore a b -
  (1/5) * limitationPenalty a b +
  categoryBoost a b

/-- `scoreCompatibility(a, b)`: weighted combination, clamped above at 1,
rounded to 3 decimals.  (The source's `Number.isNaN` guard is vacuous over
exact rationals: no term can be NaN, see `jaccardDenom`.) -/
def scoreCompatibility (a b : ToolDesc) : ℚ :=
  toFixed3 (if rawScore a b > 1 then 1 else rawScore a b)

/-- Popularity of a descriptor: `Number(t.popularity_score ?? 0) || 0`. -/
def popOf (t : ToolDesc) : ℚ := t.popularity_score.getD 0

/-- The rank score of a pair:
`Number((score * (1 + ((popA + popB) / 2) * 0.2)).toFixed(3))`. -/
def rankScoreOf (base t : ToolDesc) : ℚ :=
  toFixed3 (scoreCompatibility base t * (1 + ((popOf base + popOf t) / 2) * (1/5)))

/-- One entry of a scored result list:
`{ tool_id, name, score, rankScore }`. -/
structure MatchEntry where
  tool_id : String
  name : String
  score : ℚ
  rankScore : ℚ
deriving DecidableEq, Repr

/-- Build the scored entry for one peer tool. -/
def mkMatch (base t : ToolDesc) : MatchEntry :=
  { tool_id := t.tool_id, name := t.name,
    score := scoreCompatibility base t, rankScore := rankScoreOf base t }

/-- The order computed by the stable JavaScript sort with comparator
`(a, b) => b.rankScore - a.rankScore` on index-tagged entries: an entry
comes no later than another iff it has a strictly higher rank score, or an
equal rank score and a no-larger original index. -/
def rankLe (x y : ℕ × MatchEntry) : Prop :=
  y.2.rankScore < x.2.rankScore ∨ (x.2.rankScore = y.2.rankScore ∧ x.1 ≤ y.1)

instance : DecidableRel rankLe := fun x y => by unfold rankLe; infer_instance

instance : IsTotal (ℕ × MatchEntry) rankLe where
  total x y := by
    rcases lt_trichotomy x.2.rankScore y.2.rankScore with h | h | h
    · exact Or.inr (Or.inl h)
    · rcases Nat.le_total x.1 y.1 with h' | h'
      · exact Or.inl (Or.inr ⟨h, h'⟩)
      · exact Or.inr (Or.inr ⟨h.symm, h'⟩)
    · exact Or.inl (Or.inl h)

instance : IsTrans (ℕ × MatchEntry) rankLe where
  trans x y z hxy hyz := by
    rcases hxy with h1 | ⟨e1, l1⟩ <;> rcases hyz with h2 | ⟨e2, l2⟩
    · exact Or.inl (h2.trans h1)
    · exact Or.inl (e2 ▸ h1)
    · exact Or.inl (by rw [e1]; exact h2)
    · exact Or.inr ⟨e1.trans e2, l1.trans l2⟩

/-- `.sort((a, b) => b.rankScore - a.rankScore)` on a list of entries:
stable sort, modelled by sorting the index-tagged list by `rankLe`. -/
def sortIndexed (l : List MatchEntry) : List (ℕ × MatchEntry) :=
  l.enum.insertionSort rankLe

/-- The sorted entry list with the index tags dropped again. -/
def sortedMatches (l : List MatchEntry) : List MatchEntry :=
  (sortIndexed l).map Prod.snd

/-- The peers of a base tool, scored:
`tools.filter(t => t.tool_id !== baseId).map(...)` in registry order. -/
def peersOf (tools : List ToolDesc) (base : ToolDesc) : List MatchEntry :=
  (tools.filter (fun t => t.tool_id != base.tool_id)).map (mkMatch base)

/-- A JavaScript number that may be NaN: `none` is NaN. -/
def JSNum : Type := Option ℚ

/-- `Math.min` with NaN propagation. -/
def jsMin (x y : JSNum) : JSNum :=
  match x, y with
  | some a, some b => some (min a b)
  | _, _ => none

/-- `Math.max` with NaN propagation. -/
def jsMax (x y : JSNum) : JSNum :=
  match x, y with
  | some a, some b => some (max a b)
  | _, _ => none

/-- `Math.max(1, Math.min(Number(req.query.limit ?? 5), 20))`: the outer
`Option` is presence of the query parameter, the inner `JSNum` is its
numeric coercion (`none` = NaN, e.g. for `limit=abc`). -/
def clampLimit (raw : Option JSNum) : JSNum :=
  jsMax (some 1) (jsMin (raw.getD (some 5)) (some 20))

/-- The element count kept by `.slice(0, limit)`: NaN coerces to 0
(`ToIntegerOrInfinity(NaN) = 0`), a number is truncated toward zero
(non-negative here because of the clamp at 1). -/
def effLimit (raw : Option JSNum) : ℕ :=
  match clampLimit raw with
  | none => 0
  | some q => (⌊q⌋).toNat

/-- The single-target query path (`router.get('/')`): find the subject
(`none` = 404), score every other tool, sort descending by rank score
(stable), truncate to the clamped limit. -/
def queryMatches (tools : List ToolDesc) (toolId : String) (raw : Option JSNum) :
    Option (List MatchEntry) :=
  match tools.find? (fun t => t.tool_id == toolId) with
  | none => none
  | some base =>
      some ((sortedMatches ((tools.filter (fun t => t.tool_id != toolId)).map (mkMatch base))).take
        (effLimit raw))

/-- In the recompute-all path, the kept pairs per base tool: scored peers,
sorted descending by rank score, truncated to the per-tool limit. -/
def topMatchesFor (tools : List ToolDesc) (base : ToolDesc) (limit : ℕ) : List MatchEntry :=
  (sortedMatches (peersOf tools base)).take limit

/-- `scored[0]?.rankScore ?? 0`: the summary's `top_rank_score`. -/
def topRankOf (tools : List ToolDesc) (base : ToolDesc) (limit : ℕ) : ℚ :=
  match (topMatchesFor tools base limit).head? with
  | some m => m.rankScore
  | none => 0

/-- `scored.filter(x => x.rankScore >= 0.7).length`: the summary's
`count_above_0_7`, computed over the kept pairs. -/
def countAboveOf (tools : List ToolDesc) (base : ToolDesc) (limit : ℕ) : ℕ :=
  ((topMatchesFor tools base limit).filter (fun m => decide ((7/10 : ℚ) ≤ m.rankScore))).length

/-- The persistence loop for one base tool, returning the sizes of the
batch commits it issues: `ops` starts at 0 per subject tool, each write
increments it, and the batch is flushed (and `ops` reset) as soon as
`ops >= 450`; a final non-empty batch is flushed after the loop. -/
def batchLoop : ℕ → ℕ → List ℕ
  | 0, ops => if 0 < ops then [ops] else []
  | n + 1, ops =>
      if 450 ≤ ops + 1 then (ops + 1) :: batchLoop n 0 else batchLoop n (ops + 1)

/-- The sizes of every persistence flush issued by the recompute-all path:
one `batchLoop` run per base tool (the counter is reset per subject tool),
one write per kept pair. -/
def recomputeFlushes (tools : List ToolDesc) (limit : ℕ) : List ℕ :=
  (tools.map (fun base => batchLoop (topMatchesFor tools base limit).length 0)).flatten

/-! ## Concrete descriptors used as counterexamples and witnesses -/

/-- A descriptor whose only populated comparable field is a known
limitation. -/
def dLim : ToolDesc := { tool_id := "lim1", known_limitations := some ["slow"] }

/-- A second such descriptor sharing the same known limitation. -/
def dLim2 : ToolDesc := { tool_id := "lim2", known_limitations := some ["slow"] }

/-- Category-only descriptor, category `ide`. -/
def catIdeA : ToolDesc := { tool_id := "cA", category := some ["ide"] }

/-- Category-only descriptor, category `ide`, distinct id. -/
def catIdeB : ToolDesc := { tool_id := "cB", category := some ["ide"] }

/-- Category-only descriptor, category `db`. -/
def catDbB : ToolDesc := { tool_id := "cD", category := some ["db"] }

/-- A registry tool: integrations `github`, category `ide`. -/
def t1 : ToolDesc := { tool_id := "t1", integrations := some ["github"], category := some ["ide"] }

/-- Same fields as `t1`, different id. -/
def t2 : ToolDesc := { tool_id := "t2", integrations := some ["github"], category := some ["ide"] }

/-- Same fields as `t1`, different id. -/
def t3 : ToolDesc := { tool_id := "t3", integrations := some ["github"], category := some ["ide"] }

/-- A three-tool registry of mutually high-scoring tools. -/
def tools3 : List ToolDesc := [t1, t2, t3]

/-- Append one label to a descriptor's known-limitations list, leaving
every other field unchanged. -/
def addLimitation (t : ToolDesc) (x : String) : ToolDesc :=
  { t with known_limitations := some (t.known_limitations.getD [] ++ [x]) }

/-! ## Basic lemmas about the similarity primitives -/

theorem jaccard_comm (A B : Finset String) : jaccard A B = jaccard B A := by
  unfold jaccard jaccardDenom
  rw [Finset.inter_comm, Finset.union_comm]

theorem condJaccard_comm (A B : Finset String) : condJaccard A B = condJaccard B A := by
  unfold condJaccard
  rw [jaccard_comm]
  exact if_congr and_comm rfl rfl

theorem jaccard_nonneg (A B : Finset String) : 0 ≤ jaccard A B := by
  unfold jaccard
  positivity

theorem jaccardDenom_pos (A B : Finset String) : 0 < jaccardDenom A B := by
  unfold jaccardDenom
  split
  · exact one_pos
  · omega

theorem jaccard_le_one (A B : Finset String) : jaccard A B ≤ 1 := by
  unfold jaccard
  have hsub : (A ∩ B).card ≤ (A ∪ B).card :=
    Finset.card_le_card Finset.inter_subset_union
  rcases Nat.eq_zero_or_pos (A ∪ B).card with h | h
  · have h0 : (A ∩ B).card = 0 := by omega
    simp [h0]
  · have hd : jaccardDenom A B = (A ∪ B).card := by
      unfold jaccardDenom
      rw [if_neg (by omega)]
    rw [hd]
    apply div_le_one_of_le₀
    · exact_mod_cast hsub
    · positivity

theorem condJaccard_nonneg (A B : Finset String) : 0 ≤ condJaccard A B := by
  unfold condJaccard
  split
  · exact jaccard_nonneg A B
  · exact le_refl 0

theorem condJaccard_le_one (A B : Finset String) : condJaccard A B ≤ 1 := by
  unfold condJaccard
  split
  · exact jaccard_le_one A B
  · exact zero_le_one

theorem categoryBoost_nonneg (a b : ToolDesc) : 0 ≤ categoryBoost a b := by
  unfold categoryBoost
  split <;> norm_num

theorem categoryBoost_le (a b : ToolDesc) : categoryBoost a b ≤ 1/20 := by
  unfold categoryBoost
  split <;> norm_num

/-! ## Lemmas about the 3-decimal rounding -/

theorem toFixed3_mono {x y : ℚ} (h : x ≤ y) : toFixed3 x ≤ toFixed3 y := by
  unfold toFixed3
  have hr : round (x * 1000) ≤ round (y * 1000) := by
    rw [round_eq, round_eq]
    exact Int.floor_mono (by linarith)
  have h2 : ((round (x * 1000) : ℤ) : ℚ) ≤ ((round (y * 1000) : ℤ) : ℚ) := by exact_mod_cast hr
  linarith

theorem toFixed3_add_twentieth (q : ℚ) : toFixed3 (q + 1/20) = toFixed3 q + 1/20 := by
  unfold toFixed3
  have h : (q + 1/20) * 1000 = q * 1000 + ((50 : ℤ) : ℚ) := by push_cast; ring
  rw [h, round_add_int]
  push_cast
  ring

theorem toFixed3_neg_fifth : toFixed3 (-(1/5)) = -(1/5) := by
  unfold toFixed3
  norm_num [round_eq]

theorem toFixed3_one : toFixed3 1 = 1 := by
  unfold toFixed3
  norm_num [round_eq]

/-! ## Bounds on the raw weighted combination -/

theorem rawScore_lb (a b : ToolDesc) : -(1/5) ≤ rawScore a b := by
  unfold rawScore verifiedScore frameworkScore languageScore limitationPenalty
  have h1 := jaccard_nonneg (normalizeList a.integrations) (normalizeList b.integrations)
  have h2 := jaccard_nonneg (normalizeList a.category) (normalizeList b.category)
  have h3 := condJaccard_nonneg (normalizeList a.verified_integrations)
    (normalizeList b.verified_integrations)
  have h4 := condJaccard_nonneg (normalizeList a.frameworks) (normalizeList b.frameworks)
  have h5 := condJaccard_nonneg (normalizeList (langField a)) (normalizeList (langField b))
  have h6 := condJaccard_le_one (normalizeList a.known_limitations)
    (normalizeList b.known_limitations)
  have h7 := categoryBoost_nonneg a b
  linarith

/-- C2 (confirmed): `scoreCompatibility` is symmetric in its two arguments:
every term of the weighted combination — the five overlap ratios, the
category boost and the limitation penalty — is symmetric, hence so is the
clamped, rounded score. -/
theorem scoreCompatibility_comm (a b : ToolDesc) :
    scoreCompatibility a b = scoreCompatibility b a := by
  have hraw : rawScore a b = rawScore b a := by
    unfold rawScore verifiedScore frameworkScore languageScore limitationPenalty categoryBoost
    rw [jaccard_comm (normalizeList a.integrations),
        jaccard_comm (normalizeList a.category),
        condJaccard_comm (normalizeList a.verified_integrations),
        condJaccard_comm (normalizeList a.frameworks),
        condJaccard_comm (normalizeList (langField a)),
        condJaccard_comm (normalizeList a.known_limitations),
        Finset.inter_comm (normalizeList a.category)]
  unfold scoreCompatibility
  rw [hraw]

/-- C1 (amended, proved): the score always lies between −0.2 and 1
inclusive.  (The original claim's lower bound 0 fails: there is no lower
clamp, see the counterexample.) -/
theorem score_bounds (a b : ToolDesc) :
    -(1/5) ≤ scoreCompatibility a b ∧ scoreCompatibility a b ≤ 1 := by
  unfold scoreCompatibility
  have hlb := rawScore_lb a b
  constructor
  · calc -(1/5) = toFixed3 (-(1/5)) := toFixed3_neg_fifth.symm
      _ ≤ toFixed3 (if rawScore a b > 1 then 1 else rawScore a b) :=
        toFixed3_mono (by split_ifs <;> linarith)
  · calc toFixed3 (if rawScore a b > 1 then 1 else rawScore a b) ≤ toFixed3 1 :=
        toFixed3_mono (by split_ifs <;> linarith)
      _ = 1 := toFixed3_one

/-- C1 (counterexample): two descriptors that overlap only in their
known-limitations sets score strictly below 0 — the claimed range
`0 ≤ score` is violated (`scoreCompatibility dLim dLim2 = -0.2`). -/
theorem score_negative_cex : scoreCompatibility dLim dLim2 < 0 := by
  have hj1 : jaccard (normalizeList dLim.integrations) (normalizeList dLim2.integrations) = 0 := by
    unfold jaccard
    have h : (normalizeList dLim.integrations ∩ normalizeList dLim2.integrations).card = 0 := by
      decide
    rw [h]
    norm_num
  have hj2 : jaccard (normalizeList dLim.category) (normalizeList dLim2.category) = 0 := by
    unfold jaccard
    have h : (normalizeList dLim.category ∩ normalizeList dLim2.category).card = 0 := by decide
    rw [h]
    norm_num
  have hv : verifiedScore dLim dLim2 = 0 := by
    unfold verifiedScore condJaccard
    rw [if_neg (by decide)]
  have hf : frameworkScore dLim dLim2 = 0 := by
    unfold frameworkScore condJaccard
    rw [if_neg (by decide)]
  have hl : languageScore dLim dLim2 = 0 := by
    unfold languageScore condJaccard
    rw [if_neg (by decide)]
  have hp : limitationPenalty dLim dLim2 = 1 := by
    unfold limitationPenalty condJaccard
    rw [if_pos (by decide)]
    unfold jaccard
    have hi : (normalizeList dLim.known_limitations ∩
        normalizeList dLim2.known_limitations).card = 1 := by decide
    have hu : jaccardDenom (normalizeList dLim.known_limitations)
        (normalizeList dLim2.known_limitations) = 1 := by decide
    rw [hi, hu]
    norm_num
  have hb : categoryBoost dLim dLim2 = 0 := by
    unfold categoryBoost
    rw [if_neg (by decide)]
  have hraw : rawScore dLim dLim2 = -(1/5) := by
    unfold rawScore
    rw [hj1, hj2, hv, hf, hl, hp, hb]
    norm_num
  unfold scoreCompatibility
  rw [hraw, if_neg (by norm_num)]
  rw [toFixed3_neg_fifth]
  norm_num

/-- C4 (counterexample): a whitespace-only entry is not dropped by
`normalizeList` — there is no trimming in the code, so `"  "` does appear
in the normalized set. -/
theorem normalizeList_whitespace_cex : ("  " : String) ∈ normalizeList (some ["  "]) := by
  decide

/-- C4 (amended, proved): `normalizeList` lower-cases every entry and
drops exactly the entries that are (already) the empty string; an absent
list yields the empty set.  Entries are not trimmed, so whitespace-only
entries are kept. -/
theorem normalizeList_mem (l : Option (List String)) (s : String) :
    s ∈ normalizeList l ↔ s ≠ "" ∧ ∃ t ∈ l.getD [], toLowerStr t = s := by
  unfold normalizeList
  simp only [List.mem_toFinset, List.mem_filter, List.mem_map, decide_eq_true_eq]
  tauto

/-- C8 (confirmed): the overlap ratio is total — its guarded denominator
is always positive, so it never yields NaN/undefined; on two empty sets it
returns exactly 0; and for two descriptors whose `frameworks` lists are
both empty the framework term contributes exactly 0. -/
theorem jaccard_total_empty_zero :
    (∀ A B : Finset String, 0 < jaccardDenom A B) ∧
    jaccard ∅ ∅ = 0 ∧
    (∀ a b : ToolDesc, a.frameworks.getD [] = [] → b.frameworks.getD [] = [] →
      frameworkScore a b = 0) := by
  refine ⟨jaccardDenom_pos, ?_, ?_⟩
  · unfold jaccard
    simp
  · intro a b ha hb
    have hA : normalizeList a.frameworks = ∅ := by
      unfold normalizeList
      rw [ha]
      rfl
    have hB : normalizeList b.frameworks = ∅ := by
      unfold normalizeList
      rw [hb]
      rfl
    unfold frameworkScore condJaccard
    rw [hA, hB]
    simp

/-- Witness for `jaccard_total_empty_zero`: its framework clause applied to
two concrete descriptors with empty `frameworks`. -/
theorem jaccard_total_empty_zero_witness :
    frameworkScore dLim dLim2 = 0 ∧ 0 < jaccardDenom ∅ ∅ :=
  ⟨jaccard_total_empty_zero.2.2 dLim dLim2 rfl rfl, jaccard_total_empty_zero.1 ∅ ∅⟩

/-! ## Monotonicity in shared limitations (C9) -/

theorem jaccard_insert_le (A B : Finset String) (t : String) :
    jaccard A B ≤ jaccard (insert t A) (insert t B) := by
  have hI : insert t A ∩ insert t B = insert t (A ∩ B) :=
    (Finset.insert_inter_distrib A B t).symm
  have hU : insert t A ∪ insert t B = insert t (A ∪ B) :=
    (Finset.insert_union_distrib t A B).symm
  have hsub : (A ∩ B).card ≤ (A ∪ B).card :=
    Finset.card_le_card Finset.inter_subset_union
  by_cases htI : t ∈ A ∩ B
  · have hA : insert t A = A := Finset.insert_eq_self.2 (Finset.mem_inter.1 htI).1
    have hB : insert t B = B := Finset.insert_eq_self.2 (Finset.mem_inter.1 htI).2
    rw [hA, hB]
  · by_cases htU : t ∈ A ∪ B
    · -- the label is in one side only: intersection grows, union unchanged
      have hu : insert t (A ∪ B) = A ∪ B := Finset.insert_eq_self.2 htU
      have hupos : 0 < (A ∪ B).card := Finset.card_pos.2 ⟨t, htU⟩
      have hiCard : (insert t A ∩ insert t B).card = (A ∩ B).card + 1 := by
        rw [hI, Finset.card_insert_of_not_mem htI]
      have huCard : (insert t A ∪ insert t B).card = (A ∪ B).card := by
        rw [hU, hu]
      unfold jaccard jaccardDenom
      rw [hiCard, huCard, if_neg (show ¬(A ∪ B).card = 0 by omega)]
      gcongr
      exact_mod_cast Nat.le_succ _
    · -- the label is fresh on both sides: both sizes grow by one
      have htI' : t ∉ A ∩ B := htI
      have htU' : t ∉ A ∪ B := htU
      have hiCard : (insert t A ∩ insert t B).card = (A ∩ B).card + 1 := by
        rw [hI, Finset.card_insert_of_not_mem htI']
      have huCard : (insert t A ∪ insert t B).card = (A ∪ B).card + 1 := by
        rw [hU, Finset.card_insert_of_not_mem htU']
      rcases Nat.eq_zero_or_pos (A ∪ B).card with h0 | hpos
      · calc jaccard A B = 0 := by
              have hi0 : (A ∩ B).card = 0 := by omega
              unfold jaccard
              rw [hi0]
              norm_num
          _ ≤ jaccard (insert t A) (insert t B) := jaccard_nonneg _ _
      · unfold jaccard jaccardDenom
        rw [hiCard, huCard, if_neg (show ¬(A ∪ B).card = 0 by omega),
          if_neg (show ¬(A ∪ B).card + 1 = 0 by omega)]
        have hsubQ : ((A ∩ B).card : ℚ) ≤ ((A ∪ B).card : ℚ) := by exact_mod_cast hsub
        rw [div_le_div_iff₀ (by exact_mod_cast hpos) (by positivity)]
        push_cast
        nlinarith [hsubQ]

theorem normalizeList_append (l : List String) (x : String) :
    normalizeList (some (l ++ [x])) =
      normalizeList (some l) ∪ (if toLowerStr x = "" then ∅ else {toLowerStr x}) := by
  unfold normalizeList
  simp only [Option.getD_some, List.map_append, List.filter_append, List.toFinset_append,
    List.map_cons, List.map_nil]
  congr 1
  by_cases h : toLowerStr x = ""
  · simp [h]
  · simp [h]

theorem limitationPenalty_addLimitation_ge (a b : ToolDesc) (x : String) :
    limitationPenalty a b ≤ limitationPenalty (addLimitation a x) (addLimitation b x) := by
  have hA : (addLimitation a x).known_limitations = some (a.known_limitations.getD [] ++ [x]) :=
    rfl
  have hB : (addLimitation b x).known_limitations = some (b.known_limitations.getD [] ++ [x]) :=
    rfl
  unfold limitationPenalty
  rw [hA, hB]
  rcases eq_or_ne (toLowerStr x) "" with h0 | h0
  · -- a falsy label is dropped by normalization: nothing changes
    have eA : normalizeList (some (a.known_limitations.getD [] ++ [x])) =
        normalizeList a.known_limitations := by
      rw [normalizeList_append, if_pos h0, Finset.union_empty]
      cases hl : a.known_limitations <;> simp [normalizeList, hl]
    have eB : normalizeList (some (b.known_limitations.getD [] ++ [x])) =
        normalizeList b.known_limitations := by
      rw [normalizeList_append, if_pos h0, Finset.union_empty]
      cases hl : b.known_limitations <;> simp [normalizeList, hl]
    rw [eA, eB]
  · have eA : normalizeList (some (a.known_limitations.getD [] ++ [x])) =
        insert (toLowerStr x) (normalizeList a.known_limitations) := by
      rw [normalizeList_append, if_neg h0, Finset.union_comm, ← Finset.insert_eq]
      cases hl : a.known_limitations <;> simp [normalizeList, hl]
    have eB : normalizeList (some (b.known_limitations.getD [] ++ [x])) =
        insert (toLowerStr x) (normalizeList b.known_limitations) := by
      rw [normalizeList_append, if_neg h0, Finset.union_comm, ← Finset.insert_eq]
      cases hl : b.known_limitations <;> simp [normalizeList, hl]
    rw [eA, eB]
    have hR : condJaccard (insert (toLowerStr x) (normalizeList a.known_limitations))
        (insert (toLowerStr x) (normalizeList b.known_limitations)) =
        jaccard (insert (toLowerStr x) (normalizeList a.known_limitations))
          (insert (toLowerStr x) (normalizeList b.known_limitations)) := by
      unfold condJaccard
      rw [if_pos ⟨Finset.card_pos.2 (Finset.insert_nonempty _ _),
        Finset.card_pos.2 (Finset.insert_nonempty _ _)⟩]
    rw [hR]
    unfold condJaccard
    split
    · exact jaccard_insert_le _ _ _
    · exact jaccard_nonneg _ _

/-- C9 (confirmed): enlarging both descriptors' known-limitations lists by
one shared label never increases the compatibility score: the limitation
penalty is monotonically non-decreasing under the added shared label, every
other term is untouched, and the clamp and the rounding are monotone. -/
theorem scoreCompatibility_addLimitation_le (a b : ToolDesc) (x : String) :
    scoreCompatibility (addLimitation a x) (addLimitation b x) ≤ scoreCompatibility a b := by
  have hpen := limitationPenalty_addLimitation_ge a b x
  have hv : verifiedScore (addLimitation a x) (addLimitation b x) = verifiedScore a b := rfl
  have hf : frameworkScore (addLimitation a x) (addLimitation b x) = frameworkScore a b := rfl
  have hl : languageScore (addLimitation a x) (addLimitation b x) = languageScore a b := rfl
  have hb : categoryBoost (addLimitation a x) (addLimitation b x) = categoryBoost a b := rfl
  have hraw : rawScore (addLimitation a x) (addLimitation b x) ≤ rawScore a b := by
    unfold rawScore
    rw [hv, hf, hl, hb]
    have hint : jaccard (normalizeList (addLimitation a x).integrations)
        (normalizeList (addLimitation b x).integrations) =
        jaccard (normalizeList a.integrations) (normalizeList b.integrations) := rfl
    have hcat : jaccard (normalizeList (addLimitation a x).category)
        (normalizeList (addLimitation b x).category) =
        jaccard (normalizeList a.category) (normalizeList b.category) := rfl
    rw [hint, hcat]
    linarith
  unfold scoreCompatibility
  exact toFixed3_mono (by split_ifs <;> linarith)

/-! ## Concrete-evaluation helpers -/

theorem jaccard_eq_zero_of_card {A B : Finset String} (h : (A ∩ B).card = 0) :
    jaccard A B = 0 := by
  unfold jaccard
  rw [h]
  norm_num

theorem jaccard_eq_one_of_card {A B : Finset String} (hi : (A ∩ B).card = 1)
    (hu : jaccardDenom A B = 1) : jaccard A B = 1 := by
  unfold jaccard
  rw [hi, hu]
  norm_num

theorem toFixed3_thousandth (n : ℤ) : toFixed3 ((n : ℚ) / 1000) = (n : ℚ) / 1000 := by
  unfold toFixed3
  rw [div_mul_cancel₀ _ (by norm_num : (1000 : ℚ) ≠ 0), round_intCast]

theorem condJaccard_eq_zero {A B : Finset String} (h : ¬(0 < A.card ∧ 0 < B.card)) :
    condJaccard A B = 0 := if_neg h

theorem categoryBoost_eq_zero {a b : ToolDesc}
    (h : (normalizeList a.category ∩ normalizeList b.category).card = 0) :
    categoryBoost a b = 0 := by
  unfold categoryBoost
  exact if_neg (by omega)

theorem categoryBoost_eq_boost {a b : ToolDesc}
    (h : 0 < (normalizeList a.category ∩ normalizeList b.category).card) :
    categoryBoost a b = 1/20 := by
  unfold categoryBoost
  exact if_pos h

/-! ## The category boost (C3) -/

/-- C3 (amended, proved): two descriptor pairs identical in every field
except their category lists, the first sharing at least one normalized
label, the second sharing none: the first pair scores strictly higher, and
higher by at least the 0.05 boost — but not by exactly 0.05 in general,
because the proportional category-overlap term (weight 0.20) changes along
with the boost; see the counterexample. -/
theorem category_share_boost (a b : ToolDesc) (c1 d1 c2 d2 : Option (List String))
    (h1 : 0 < (normalizeList c1 ∩ normalizeList d1).card)
    (h2 : (normalizeList c2 ∩ normalizeList d2).card = 0) :
    scoreCompatibility { a with category := c2 } { b with category := d2 } + 1/20 ≤
      scoreCompatibility { a with category := c1 } { b with category := d1 } ∧
    scoreCompatibility { a with category := c2 } { b with category := d2 } <
      scoreCompatibility { a with category := c1 } { b with category := d1 } := by
  have hb1 : categoryBoost { a with category := c1 } { b with category := d1 } = 1/20 := by
    unfold categoryBoost
    rw [show normalizeList ({ a with category := c1 } : ToolDesc).category = normalizeList c1
        from rfl,
      show normalizeList ({ b with category := d1 } : ToolDesc).category = normalizeList d1
        from rfl]
    exact if_pos h1
  have hb2 : categoryBoost { a with category := c2 } { b with category := d2 } = 0 := by
    unfold categoryBoost
    rw [show normalizeList ({ a with category := c2 } : ToolDesc).category = normalizeList c2
        from rfl,
      show normalizeList ({ b with category := d2 } : ToolDesc).category = normalizeList d2
        from rfl]
    exact if_neg (by omega)
  have hraw1 : rawScore { a with category := c1 } { b with category := d1 } =
      ((11/20) * jaccard (normalizeList a.integrations) (normalizeList b.integrations) +
        (1/10) * verifiedScore a b + (1/10) * frameworkScore a b +
        (1/20) * languageScore a b - (1/5) * limitationPenalty a b) +
      (1/5) * jaccard (normalizeList c1) (normalizeList d1) + 1/20 := by
    unfold rawScore
    rw [hb1,
      show normalizeList ({ a with category := c1 } : ToolDesc).integrations =
        normalizeList a.integrations from rfl,
      show normalizeList ({ b with category := d1 } : ToolDesc).integrations =
        normalizeList b.integrations from rfl,
      show normalizeList ({ a with category := c1 } : ToolDesc).category = normalizeList c1
        from rfl,
      show normalizeList ({ b with category := d1 } : ToolDesc).category = normalizeList d1
        from rfl,
      show verifiedScore { a with category := c1 } { b with category := d1 } =
        verifiedScore a b from rfl,
      show frameworkScore { a with category := c1 } { b with category := d1 } =
        frameworkScore a b from rfl,
      show languageScore { a with category := c1 } { b with category := d1 } =
        languageScore a b from rfl,
      show limitationPenalty { a with category := c1 } { b with category := d1 } =
        limitationPenalty a b from rfl]
    ring
  have hraw2 : rawScore { a with category := c2 } { b with category := d2 } =
      (11/20) * jaccard (normalizeList a.integrations) (normalizeList b.integrations) +
        (1/10) * verifiedScore a b + (1/10) * frameworkScore a b +
        (1/20) * languageScore a b - (1/5) * limitationPenalty a b := by
    unfold rawScore
    rw [hb2,
      show normalizeList ({ a with category := c2 } : ToolDesc).integrations =
        normalizeList a.integrations from rfl,
      show normalizeList ({ b with category := d2 } : ToolDesc).integrations =
        normalizeList b.integrations from rfl,
      show normalizeList ({ a with category := c2 } : ToolDesc).category = normalizeList c2
        from rfl,
      show normalizeList ({ b with category := d2 } : ToolDesc).category = normalizeList d2
        from rfl,
      show verifiedScore { a with category := c2 } { b with category := d2 } =
        verifiedScore a b from rfl,
      show frameworkScore { a with category := c2 } { b with category := d2 } =
        frameworkScore a b from rfl,
      show languageScore { a with category := c2 } { b with category := d2 } =
        languageScore a b from rfl,
      show limitationPenalty { a with category := c2 } { b with category := d2 } =
        limitationPenalty a b from rfl,
      jaccard_eq_zero_of_card h2]
    ring
  have hK_ub : (11/20) * jaccard (normalizeList a.integrations) (normalizeList b.integrations) +
      (1/10) * verifiedScore a b + (1/10) * frameworkScore a b +
      (1/20) * languageScore a b - (1/5) * limitationPenalty a b ≤ 4/5 := by
    have j1 := jaccard_le_one (normalizeList a.integrations) (normalizeList b.integrations)
    have v1 : verifiedScore a b ≤ 1 := condJaccard_le_one _ _
    have f1 : frameworkScore a b ≤ 1 := condJaccard_le_one _ _
    have l1 : languageScore a b ≤ 1 := condJaccard_le_one _ _
    have p0 : 0 ≤ limitationPenalty a b := condJaccard_nonneg _ _
    linarith
  have hj1nn := jaccard_nonneg (normalizeList c1) (normalizeList d1)
  have hmain : scoreCompatibility { a with category := c2 } { b with category := d2 } + 1/20 ≤
      scoreCompatibility { a with category := c1 } { b with category := d1 } := by
    unfold scoreCompatibility
    rw [if_neg (show ¬rawScore { a with category := c2 } { b with category := d2 } > 1 by
      rw [hraw2]; linarith)]
    calc toFixed3 (rawScore { a with category := c2 } { b with category := d2 }) + 1/20 =
        toFixed3 (rawScore { a with category := c2 } { b with category := d2 } + 1/20) :=
          (toFixed3_add_twentieth _).symm
      _ ≤ toFixed3 (if rawScore { a with category := c1 } { b with category := d1 } > 1 then 1
            else rawScore { a with category := c1 } { b with category := d1 }) := by
          apply toFixed3_mono
          split_ifs with h
          · rw [hraw2]; linarith
          · rw [hraw1, hraw2]; linarith
  exact ⟨hmain, by linarith⟩

/-- Witness for `category_share_boost`: the strict-increase clause at
concrete category-only descriptors (`ide`/`ide` versus `ide`/`db`). -/
theorem category_share_boost_witness :
    scoreCompatibility { catIdeA with category := some ["ide"] }
        { catIdeB with category := some ["db"] } <
      scoreCompatibility { catIdeA with category := some ["ide"] }
        { catIdeB with category := some ["ide"] } :=
  (category_share_boost catIdeA catIdeB (some ["ide"]) (some ["ide"]) (some ["ide"])
    (some ["db"]) (by decide) (by decide)).2

/-- C3 (counterexample): at category-only descriptors the score gap between
a label-sharing pair and an otherwise-identical non-sharing pair is 0.25
(the 0.05 boost plus the 0.20-weighted category overlap), not exactly
0.05. -/
theorem category_boost_exact_cex :
    scoreCompatibility catIdeA catIdeB - scoreCompatibility catIdeA catDbB ≠ 1/20 := by
  have e1 : scoreCompatibility catIdeA catIdeB = 1/4 := by
    have hraw : rawScore catIdeA catIdeB = 1/4 := by
      unfold rawScore
      rw [jaccard_eq_zero_of_card (show (normalizeList catIdeA.integrations ∩
            normalizeList catIdeB.integrations).card = 0 by decide),
        jaccard_eq_one_of_card (show (normalizeList catIdeA.category ∩
            normalizeList catIdeB.category).card = 1 by decide) (by decide),
        show verifiedScore catIdeA catIdeB = 0 from condJaccard_eq_zero (by decide),
        show frameworkScore catIdeA catIdeB = 0 from condJaccard_eq_zero (by decide),
        show languageScore catIdeA catIdeB = 0 from condJaccard_eq_zero (by decide),
        show limitationPenalty catIdeA catIdeB = 0 from condJaccard_eq_zero (by decide),
        categoryBoost_eq_boost (a := catIdeA) (b := catIdeB) (by decide)]
      norm_num
    unfold scoreCompatibility
    rw [hraw, if_neg (by norm_num)]
    rw [show (1/4 : ℚ) = ((250 : ℤ) : ℚ) / 1000 by norm_num, toFixed3_thousandth]
  have e2 : scoreCompatibility catIdeA catDbB = 0 := by
    have hraw : rawScore catIdeA catDbB = 0 := by
      unfold rawScore
      rw [jaccard_eq_zero_of_card (show (normalizeList catIdeA.integrations ∩
            normalizeList catDbB.integrations).card = 0 by decide),
        jaccard_eq_zero_of_card (show (normalizeList catIdeA.category ∩
            normalizeList catDbB.category).card = 0 by decide),
        show verifiedScore catIdeA catDbB = 0 from condJaccard_eq_zero (by decide),
        show frameworkScore catIdeA catDbB = 0 from condJaccard_eq_zero (by decide),
        show languageScore catIdeA catDbB = 0 from condJaccard_eq_zero (by decide),
        show limitationPenalty catIdeA catDbB = 0 from condJaccard_eq_zero (by decide),
        categoryBoost_eq_zero (a := catIdeA) (b := catDbB) (by decide)]
      norm_num
    unfold scoreCompatibility
    rw [hraw, if_neg (by norm_num)]
    rw [show (0 : ℚ) = ((0 : ℤ) : ℚ) / 1000 by norm_num, toFixed3_thousandth]
  rw [e1, e2]
  norm_num

/-! ## Sorting machinery shared by the two result paths -/

theorem rank_le_of_rankLe {x y : ℕ × MatchEntry} (h : rankLe x y) :
    y.2.rankScore ≤ x.2.rankScore := by
  rcases h with h | ⟨e, _⟩
  · exact le_of_lt h
  · exact e.ge

theorem sorted_sortIndexed (l : List MatchEntry) : List.Sorted rankLe (sortIndexed l) :=
  List.sorted_insertionSort rankLe l.enum

theorem perm_sortIndexed (l : List MatchEntry) : (sortIndexed l).Perm l.enum :=
  List.perm_insertionSort rankLe l.enum

/-! ## The recompute summary (C5) -/

/-- C5 (amended, proved): the persisted summary is computed from the KEPT
top-`limit` pairs only, not from all peers in the registry:
`countAboveThreshold` is the number of kept pairs with rank score at or
above 0.7, and `topRankScore` is the maximum rank score among the kept
pairs, or 0 when there are none. -/
theorem recompute_summary_kept_only (tools : List ToolDesc) (base : ToolDesc) (limit : ℕ) :
    countAboveOf tools base limit =
      ((topMatchesFor tools base limit).filter
        (fun m => decide ((7/10 : ℚ) ≤ m.rankScore))).length ∧
    (∀ m ∈ topMatchesFor tools base limit, m.rankScore ≤ topRankOf tools base limit) ∧
    (topMatchesFor tools base limit = [] → topRankOf tools base limit = 0) ∧
    (topMatchesFor tools base limit ≠ [] →
      ∃ m ∈ topMatchesFor tools base limit, topRankOf tools base limit = m.rankScore) := by
  refine ⟨rfl, ?_, ?_, ?_⟩
  · intro m hm
    have hs := sorted_sortIndexed (peersOf tools base)
    rcases hS : sortIndexed (peersOf tools base) with _ | ⟨s0, S'⟩
    · exfalso
      have hempty : topMatchesFor tools base limit = [] := by
        unfold topMatchesFor sortedMatches
        rw [hS]
        simp
      rw [hempty] at hm
      exact List.not_mem_nil m hm
    · rcases limit with _ | k
      · exfalso
        have hempty : topMatchesFor tools base 0 = [] := by
          unfold topMatchesFor
          simp
        rw [hempty] at hm
        exact List.not_mem_nil m hm
      · have htop : topRankOf tools base (k + 1) = s0.2.rankScore := by
          unfold topRankOf topMatchesFor sortedMatches
          rw [hS]
          rfl
        rw [htop]
        have hm' : m ∈ s0.2 :: (S'.map Prod.snd).take k := by
          have : topMatchesFor tools base (k + 1) = s0.2 :: (S'.map Prod.snd).take k := by
            unfold topMatchesFor sortedMatches
            rw [hS]
            rfl
          rw [this] at hm
          exact hm
        rw [hS] at hs
        rcases List.mem_cons.mp hm' with rfl | hmem
        · exact le_refl _
        · have hmem2 : m ∈ S'.map Prod.snd := List.take_subset _ _ hmem
          rcases List.mem_map.mp hmem2 with ⟨p, hp, rfl⟩
          exact rank_le_of_rankLe ((List.sorted_cons.mp hs).1 p hp)
  · intro h
    unfold topRankOf
    rw [h]
    rfl
  · intro hne
    rcases hT : topMatchesFor tools base limit with _ | ⟨m0, tl⟩
    · exact absurd hT hne
    · refine ⟨m0, List.mem_cons_self m0 tl, ?_⟩
      unfold topRankOf
      rw [hT]
      rfl

/-- Witness for `recompute_summary_kept_only`: its empty-kept clause at an
empty registry, where the summary's top rank score is 0. -/
theorem recompute_summary_kept_only_witness : topRankOf [] t1 1 = 0 :=
  (recompute_summary_kept_only [] t1 1).2.2.1 rfl

/-- C5 (counterexample): in the three-tool registry `tools3` with per-tool
limit 1, both peers of `t1` have rank score 0.8 ≥ 0.7, but the persisted
`countAboveThreshold` is computed after the top-1 truncation, so it cannot
exceed 1 and differs from the all-peers count 2. -/
theorem count_above_truncated_cex :
    countAboveOf tools3 t1 1 ≠
      ((peersOf tools3 t1).filter (fun m => decide ((7/10 : ℚ) ≤ m.rankScore))).length := by
  have hraw12 : rawScore t1 t2 = 4/5 := by
    unfold rawScore
    rw [jaccard_eq_one_of_card (show (normalizeList t1.integrations ∩
          normalizeList t2.integrations).card = 1 by decide) (by decide),
      jaccard_eq_one_of_card (show (normalizeList t1.category ∩
          normalizeList t2.category).card = 1 by decide) (by decide),
      show verifiedScore t1 t2 = 0 from condJaccard_eq_zero (by decide),
      show frameworkScore t1 t2 = 0 from condJaccard_eq_zero (by decide),
      show languageScore t1 t2 = 0 from condJaccard_eq_zero (by decide),
      show limitationPenalty t1 t2 = 0 from condJaccard_eq_zero (by decide),
      categoryBoost_eq_boost (a := t1) (b := t2) (by decide)]
    norm_num
  have hraw13 : rawScore t1 t3 = 4/5 := by
    unfold rawScore
    rw [jaccard_eq_one_of_card (show (normalizeList t1.integrations ∩
          normalizeList t3.integrations).card = 1 by decide) (by decide),
      jaccard_eq_one_of_card (show (normalizeList t1.category ∩
          normalizeList t3.category).card = 1 by decide) (by decide),
      show verifiedScore t1 t3 = 0 from condJaccard_eq_zero (by decide),
      show frameworkScore t1 t3 = 0 from condJaccard_eq_zero (by decide),
      show languageScore t1 t3 = 0 from condJaccard_eq_zero (by decide),
      show limitationPenalty t1 t3 = 0 from condJaccard_eq_zero (by decide),
      categoryBoost_eq_boost (a := t1) (b := t3) (by decide)]
    norm_num
  have hs12 : scoreCompatibility t1 t2 = 4/5 := by
    unfold scoreCompatibility
    rw [hraw12, if_neg (by norm_num)]
    rw [show (4/5 : ℚ) = ((800 : ℤ) : ℚ) / 1000 by norm_num, toFixed3_thousandth]
  have hs13 : scoreCompatibility t1 t3 = 4/5 := by
    unfold scoreCompatibility
    rw [hraw13, if_neg (by norm_num)]
    rw [show (4/5 : ℚ) = ((800 : ℤ) : ℚ) / 1000 by norm_num, toFixed3_thousandth]
  have hrank12 : rankScoreOf t1 t2 = 4/5 := by
    unfold rankScoreOf
    rw [hs12, show popOf t1 = 0 from rfl, show popOf t2 = 0 from rfl,
      show (4/5 : ℚ) * (1 + ((0 + 0) / 2) * (1/5)) = ((800 : ℤ) : ℚ) / 1000 by norm_num,
      toFixed3_thousandth]
    norm_num
  have hrank13 : rankScoreOf t1 t3 = 4/5 := by
    unfold rankScoreOf
    rw [hs13, show popOf t1 = 0 from rfl, show popOf t3 = 0 from rfl,
      show (4/5 : ℚ) * (1 + ((0 + 0) / 2) * (1/5)) = ((800 : ℤ) : ℚ) / 1000 by norm_num,
      toFixed3_thousandth]
    norm_num
  have hfull : ((peersOf tools3 t1).filter
      (fun m => decide ((7/10 : ℚ) ≤ m.rankScore))).length = 2 := by
    have hpeers : peersOf tools3 t1 = [mkMatch t1 t2, mkMatch t1 t3] := rfl
    have hb2 : decide ((7/10 : ℚ) ≤ (mkMatch t1 t2).rankScore) = true := by
      simp only [decide_eq_true_eq]
      rw [show (mkMatch t1 t2).rankScore = rankScoreOf t1 t2 from rfl, hrank12]
      norm_num
    have hb3 : decide ((7/10 : ℚ) ≤ (mkMatch t1 t3).rankScore) = true := by
      simp only [decide_eq_true_eq]
      rw [show (mkMatch t1 t3).rankScore = rankScoreOf t1 t3 from rfl, hrank13]
      norm_num
    rw [hpeers]
    simp [List.filter_cons, hb2, hb3]
  have hsmall : countAboveOf tools3 t1 1 ≤ 1 := by
    unfold countAboveOf
    calc ((topMatchesFor tools3 t1 1).filter
          (fun m => decide ((7/10 : ℚ) ≤ m.rankScore))).length ≤
        (topMatchesFor tools3 t1 1).length := List.length_filter_le _ _
      _ ≤ 1 := by
        unfold topMatchesFor
        rw [List.length_take]
        exact min_le_left _ _
  intro h
  rw [hfull] at h
  omega

/-! ## The single-target query path (C6, C10) -/

/-- C6 (confirmed): for a subject id present in the registry, the query
path returns the other tools sorted descending by rank score with ties
broken by original registry order (the stable sort of the index-tagged
entries by `rankLe` — higher rank first, equal ranks by lower index — is
sorted and a permutation of the scored peers), truncated to the effective
limit, which defaults to 5 and is clamped to [1, 20] for every numeric
input. -/
theorem single_target_query_spec (tools : List ToolDesc) (toolId : String)
    (raw : Option JSNum) (base : ToolDesc)
    (hb : tools.find? (fun t => t.tool_id == toolId) = some base) :
    queryMatches tools toolId raw =
      some ((sortedMatches ((tools.filter (fun t => t.tool_id != toolId)).map
        (mkMatch base))).take (effLimit raw)) ∧
    List.Sorted rankLe
      (sortIndexed ((tools.filter (fun t => t.tool_id != toolId)).map (mkMatch base))) ∧
    (sortIndexed ((tools.filter (fun t => t.tool_id != toolId)).map (mkMatch base))).Perm
      ((tools.filter (fun t => t.tool_id != toolId)).map (mkMatch base)).enum ∧
    effLimit none = 5 ∧
    (∀ q : ℚ, 1 ≤ effLimit (some (some q)) ∧ effLimit (some (some q)) ≤ 20) := by
  refine ⟨?_, sorted_sortIndexed _, perm_sortIndexed _, ?_, ?_⟩
  · unfold queryMatches
    rw [hb]
  · have h1 : clampLimit none = some 5 := by
      show jsMax (some 1) (jsMin (some 5) (some 20)) = some 5
      unfold jsMin jsMax
      norm_num [min_def, max_def]
    unfold effLimit
    rw [h1]
    show (⌊(5 : ℚ)⌋).toNat = 5
    rw [show ⌊(5 : ℚ)⌋ = (5 : ℤ) by norm_num]
    rfl
  · intro q
    have h1 : clampLimit (some (some q)) = some (max 1 (min q 20)) := by
      show jsMax (some 1) (jsMin (some q) (some 20)) = some (max 1 (min q 20))
      unfold jsMin jsMax
      rfl
    constructor
    · unfold effLimit
      rw [h1]
      show 1 ≤ (⌊max 1 (min q 20)⌋).toNat
      have h2 : (1 : ℤ) ≤ ⌊max 1 (min q 20)⌋ := by
        rw [Int.le_floor]
        exact_mod_cast le_max_left 1 (min q 20)
      omega
    · unfold effLimit
      rw [h1]
      show (⌊max 1 (min q 20)⌋).toNat ≤ 20
      have h2 : ((⌊max 1 (min q 20)⌋ : ℤ) : ℚ) ≤ 20 := by
        calc ((⌊max 1 (min q 20)⌋ : ℤ) : ℚ) ≤ max 1 (min q 20) := Int.floor_le _
          _ ≤ 20 := max_le (by norm_num) (min_le_right _ _)
      have h3 : ⌊max 1 (min q 20)⌋ ≤ 20 := by exact_mod_cast h2
      omega

/-- Witness for `single_target_query_spec`: on the concrete registry
`tools3`, the query for subject `t1` succeeds. -/
theorem single_target_query_spec_witness : (queryMatches tools3 "t1" none).isSome = true := by
  rw [(single_target_query_spec tools3 "t1" none t1 rfl).1]
  rfl

/-- C10 (confirmed): a non-numeric `limit` query parameter (NaN after
`Number(...)`) propagates through both clamps — `Math.min(NaN, 20)` and
`Math.max(1, NaN)` are NaN — and `.slice(0, NaN)` keeps 0 elements, so the
query returns an empty match list (count 0); the documented default of 5
is not applied. -/
theorem nan_limit_empty (tools : List ToolDesc) (toolId : String) (base : ToolDesc)
    (hb : tools.find? (fun t => t.tool_id == toolId) = some base) :
    clampLimit (some none) = none ∧ effLimit (some none) = 0 ∧
    queryMatches tools toolId (some none) = some [] := by
  refine ⟨rfl, rfl, ?_⟩
  unfold queryMatches
  rw [hb]
  rfl

/-- Witness for `nan_limit_empty`: the concrete registry `tools3`,
subject `t1`, `limit=abc`. -/
theorem nan_limit_empty_witness : queryMatches tools3 "t1" (some none) = some [] :=
  (nan_limit_empty tools3 "t1" t1 rfl).2.2

/-! ## The recompute batch ceiling (C7) -/

theorem batchLoop_le (n : ℕ) : ∀ ops, ops ≤ 449 → ∀ f ∈ batchLoop n ops, f ≤ 450 := by
  induction n with
  | zero =>
    intro ops hops f hf
    simp only [batchLoop] at hf
    by_cases h : 0 < ops
    · rw [if_pos h] at hf
      rcases List.mem_singleton.mp hf with rfl
      omega
    · rw [if_neg h] at hf
      exact absurd hf (List.not_mem_nil f)
  | succ k ih =>
    intro ops hops f hf
    simp only [batchLoop] at hf
    by_cases h : 450 ≤ ops + 1
    · rw [if_pos h] at hf
      rcases List.mem_cons.mp hf with rfl | hf'
      · omega
      · exact ih 0 (by omega) f hf'
    · rw [if_neg h] at hf
      exact ih (ops + 1) (by omega) f hf

/-- C7 (confirmed): in the recompute-all path, for every registry and every
per-tool limit in the accepted range 1–50, no single batch flush contains
more than 450 write operations: the batch is flushed as soon as the
per-subject counter reaches 450, and the counter restarts at 0 for each
subject tool. -/
theorem recompute_flush_bounded (tools : List ToolDesc) (limit : ℕ)
    (h1 : 1 ≤ limit) (h2 : limit ≤ 50) :
    (recomputeFlushes tools limit).all (fun f => decide (f ≤ 450)) = true := by
  rw [List.all_eq_true]
  intro f hf
  simp only [decide_eq_true_eq]
  unfold recomputeFlushes at hf
  rcases List.mem_flatten.mp hf with ⟨l, hl, hfl⟩
  rcases List.mem_map.mp hl with ⟨base, _, rfl⟩
  exact batchLoop_le _ 0 (by omega) f hfl

/-- Witness for `recompute_flush_bounded`: the concrete registry `tools3`
with the default per-tool limit 10. -/
theorem recompute_flush_bounded_witness :
    (recomputeFlushes tools3 10).all (fun f => decide (f ≤ 450)) = true :=
  recompute_flush_bounded tools3 10 (by norm_num) (by norm_num)

end Compat

